import Mathlib

/-!
Verification of the atriumn-issue-triage webhook relay.

This file shallowly embeds the core of the repository:

* `src/config.js`     — per-repository policy table, thresholds, pattern matching
* `src/analyzer.js`   — `parseAnalysisResult` and `determineAction`
* `src/pipeline.js`   — `processIssue` (dispatch of the decided action)
* `src/spawner.js`    — `generateFallbackPrompt` and the prompt selection in
                        `spawnRalphForIssue`
* `src/index.js`      — deduplication map (`isDuplicate` / `isAlreadyProcessed`,
                        `markProcessed`) and the webhook `issues.opened` handler

Modelling conventions:

* JavaScript numbers that carry confidences / thresholds are modelled as `Rat`.
  The literals involved (0.85, 0.70, 0.5, 1.5, …) are exactly representable in
  binary-independent fashion for all comparisons performed by the code.
* Timestamps (`Date.now()`) are modelled as `Nat` milliseconds.
* Fallible JS code (`throw`) is modelled with `Except String`.
* JS whitespace (for `String.prototype.trim`, the regex class `\s`, and JSON
  whitespace) is modelled as the four characters space, tab, LF, CR; this is
  exact for JSON whitespace and agrees with JS on all ASCII inputs except the
  rare vertical-tab / form-feed characters.
* The JS regular expressions in the policy table are of only two shapes,
  `/word/i` and `/a.*b/i`; they are embedded as such (`JsRegex`).
-/

namespace Triage

/-! ## Whitespace utilities (model of JS `trim` / `\s` / JSON whitespace) -/

/-- The JSON whitespace characters (also used to model JS `trim` and `\s`). -/
def isWsChar (c : Char) : Bool :=
  c == ' ' || c == Char.ofNat 9 || c == Char.ofNat 10 || c == Char.ofNat 13

/-- Drop leading whitespace characters. -/
def dropWs (l : List Char) : List Char := l.dropWhile isWsChar

/-- Drop trailing whitespace characters. -/
def dropWsEnd (l : List Char) : List Char := (dropWs l.reverse).reverse

/-- Drop whitespace from both ends (model of JS `String.prototype.trim`). -/
def trimWs (l : List Char) : List Char := dropWsEnd (dropWs l)

/-! ## JSON values (results of `JSON.parse`) -/

/-- A JSON value as produced by `JSON.parse`.  Numbers are rationals. -/
inductive JsonVal where
  | null : JsonVal
  | bool (b : Bool) : JsonVal
  | num (q : Rat) : JsonVal
  | str (s : String) : JsonVal
  | arr (xs : List JsonVal) : JsonVal
  | obj (fields : List (String × JsonVal)) : JsonVal

/-- The fields of a parsed JSON object. -/
abbrev JFields := List (String × JsonVal)

/-! ## Policy store (`src/config.js`) -/

/-- One of the two shapes of regular expression appearing in
`noAutoFixPatterns`: a case-insensitive literal (`/security/i`) or a
case-insensitive "a then anything then b" pattern (`/database.*migration/i`).
All pattern literals in the table are lowercase ASCII, so case-insensitive
matching is modelled by lowercasing the subject text. -/
inductive JsRegex where
  | isub (pat : String) : JsRegex
  | igap (a b : String) : JsRegex

/-- `t` contains `p` as a contiguous substring. -/
def strContainsSub (t p : List Char) : Bool :=
  (List.range (t.length + 1)).any (fun i => p.isPrefixOf (t.drop i))

/-- Case folding of the subject text (the pattern literals are lowercase). -/
def lowerChars (s : String) : List Char := s.toList.map Char.toLower

/-- `RegExp.prototype.test` for the two pattern shapes.  For `igap a b`
(the embedding of `/a.*b/i`) the match succeeds when an occurrence of `a` is
followed by an occurrence of `b`; as in JS, `.` does not match a line feed,
so the gap between the two occurrences must be free of LF characters. -/
def JsRegex.test : JsRegex → String → Bool
  | .isub p, s => strContainsSub (lowerChars s) p.toList
  | .igap a b, s =>
    let t := lowerChars s
    let n := t.length
    (List.range (n + 1)).any fun i =>
      a.toList.isSuffixOf (t.take i) &&
      (List.range (n + 1)).any fun j =>
        decide (i ≤ j) &&
        ((t.drop i).take (j - i)).all (fun c => c != Char.ofNat 10) &&
        b.toList.isPrefixOf (t.drop j)

/-- Per-repository policy record (`RepoConfig` in `src/config.js`). -/
structure RepoConfig where
  enabled : Bool
  autoSpawnEnabled : Bool
  priority : String
  projectDir : String
  noAutoFixPatterns : List JsRegex

/-- The four shared `noAutoFixPatterns` of the fully-enabled repositories. -/
def standardPatterns : List JsRegex :=
  [.isub "security", .isub "credentials",
   .igap "database" "migration", .igap "breaking" "change"]

/-- The static `repoConfig` table of `src/config.js`. -/
def repoConfigTable : List (String × RepoConfig) :=
  [("idynic",
    ⟨true, true, "high", "/home/jeff/projects/idynic", standardPatterns⟩),
   ("veriumn",
    ⟨true, true, "high", "/home/jeff/projects/veriumn", standardPatterns⟩),
   ("ovrly",
    ⟨true, true, "medium", "/home/jeff/projects/ovrly", standardPatterns⟩),
   ("tariff",
    ⟨true, true, "medium", "/home/jeff/projects/tariff", standardPatterns⟩),
   ("atriumn-site",
    ⟨true, false, "low", "/home/jeff/projects/atriumn-site",
     [.isub "security", .isub "credentials"]⟩)]

/-- The disabled default that `getRepoConfig` falls back to. -/
def defaultRepoConfig : RepoConfig := ⟨false, false, "low", "", []⟩

/-- The property names of `Object.prototype`.  `repoConfig` is a plain object
literal, so a property read `repoConfig[name]` for one of these names finds
the inherited member of `Object.prototype` — a truthy function or object that
is not a `RepoConfig` — instead of `undefined`. -/
def objectProtoKeys : List String :=
  ["constructor", "hasOwnProperty", "isPrototypeOf", "propertyIsEnumerable",
   "toLocaleString", "toString", "valueOf", "__defineGetter__",
   "__defineSetter__", "__lookupGetter__", "__lookupSetter__", "__proto__"]

/-- The JS value produced by `repoConfig[repoName] || defaultRepoConfig`:
either an actual policy record, or a truthy non-policy value inherited from
`Object.prototype` (for which the `||` fallback does not fire because the
inherited value is truthy). -/
inductive JsConfigVal where
  | conf (c : RepoConfig) : JsConfigVal
  | protoValue : JsConfigVal

/-- `getRepoConfig` of `src/config.js`:
`repoConfig[repoName] || { enabled: false, ... }`.  A name that is an own key
of the table yields its record; a name that is a property of
`Object.prototype` yields the inherited (truthy, non-policy) value, so the
fallback is skipped; any other name yields the disabled default. -/
def getRepoConfig (repoName : String) : JsConfigVal :=
  match List.lookup repoName repoConfigTable with
  | some c => .conf c
  | none =>
    if objectProtoKeys.contains repoName then .protoValue
    else .conf defaultRepoConfig

/-- Truthiness of `repoConf.enabled` as read by the webhook handlers.  On the
inherited non-policy value the property read gives `undefined`, which is
falsy. -/
def jsEnabled : JsConfigVal → Bool
  | .conf c => c.enabled
  | .protoValue => false

/-- `matchesNoAutoFix` of `src/config.js`: looks the repository up again by
name and tests `` `${issueTitle} ${issueBody}` `` against every pattern.  When
the lookup produced the inherited non-policy value, `config.noAutoFixPatterns`
is `undefined` and the `.some(...)` call throws a `TypeError`. -/
def matchesNoAutoFix (repoName issueTitle issueBody : String) :
    Except String Bool :=
  match getRepoConfig repoName with
  | .conf c =>
    .ok (c.noAutoFixPatterns.any
      (fun p => p.test (issueTitle ++ " " ++ issueBody)))
  | .protoValue => .error "TypeError: noAutoFixPatterns is undefined"

/-- Confidence thresholds record. -/
structure Thresholds where
  autoSpawn : Rat
  offerFix : Rat

/-- The `thresholds` constant of `src/config.js` (`autoSpawn: 0.85`,
`offerFix: 0.70`, written with `mkRat` so that they evaluate). -/
def thresholds : Thresholds := ⟨mkRat 85 100, mkRat 70 100⟩

/-! ## Analyzer data model (`src/analyzer.js`) -/

/-- A validated `AnalysisResult` (the typedef of `src/analyzer.js`).
`ralphPrompt` is `string | null`, modelled with `Option`. -/
structure AnalysisResult where
  type : String
  severity : String
  autoFixable : Bool
  confidence : Rat
  reasoning : String
  acceptanceCriteria : List String
  needsClarification : List String
  ralphPrompt : Option String

/-- The parts of a GitHub issue object read by `determineAction`.
`title` and `body` may be absent (`undefined`), modelled with `Option`. -/
structure Issue where
  title : Option String
  body : Option String

/-- The `TriageAction` enum of `src/analyzer.js`. -/
inductive TriageAction where
  | autoSpawn : TriageAction
  | offerFix : TriageAction
  | notify : TriageAction
  | clarify : TriageAction
deriving DecidableEq

/-- `determineAction` of `src/analyzer.js`.  The `Except` accounts for the
`TypeError` that `matchesNoAutoFix` can throw on prototype-key repository
names; every other path is total. -/
def determineAction (analysis : AnalysisResult) (repo : String)
    (issue : Issue) (repoConf : RepoConfig) : Except String TriageAction :=
  if analysis.needsClarification.length > 0 then .ok .clarify
  else if analysis.autoFixable = false then .ok .notify
  else
    match matchesNoAutoFix repo (issue.title.getD "") (issue.body.getD "") with
    | .error e => .error e
    | .ok true => .ok .notify
    | .ok false =>
      if repoConf.autoSpawnEnabled = false then .ok .notify
      else if thresholds.autoSpawn ≤ analysis.confidence then .ok .autoSpawn
      else if thresholds.offerFix ≤ analysis.confidence then .ok .offerFix
      else .ok .notify

/-! ## Claims about the decision engine -/

/-- C1: for every classification, repository policy and issue, if the
clarification-question list `needsClarification` is non-empty then
`determineAction` returns `clarify`, regardless of confidence, `autoFixable`,
sensitive-pattern matches, or `autoSpawnEnabled`; the check precedes every
other rule. -/
theorem determineAction_clarify_first (analysis : AnalysisResult)
    (repo : String) (issue : Issue) (repoConf : RepoConfig)
    (h : analysis.needsClarification ≠ []) :
    determineAction analysis repo issue repoConf = .ok .clarify := by
  have hlen : analysis.needsClarification.length > 0 := List.length_pos.mpr h
  unfold determineAction
  simp [hlen]

/-- Witness for C1: a concrete under-specified, high-confidence,
auto-fixable classification on an auto-spawn-enabled repository is still sent
to clarification. -/
theorem determineAction_clarify_first_w :
    determineAction
      ⟨"bug", "high", true, mkRat 99 100, "r", [], ["which browser?"], none⟩
      "idynic" ⟨some "t", some "b"⟩
      ⟨true, true, "high", "/home/jeff/projects/idynic", standardPatterns⟩ =
      .ok .clarify :=
  determineAction_clarify_first _ _ _ _ (by simp)

/-- C2: with no open questions, `autoFixable = true`, no sensitive-pattern
match and `autoSpawnEnabled = true`, the outcome is exactly determined by the
confidence against the two inclusive thresholds: `auto-spawn` iff
`0.85 ≤ confidence`, `offer-fix` iff `0.70 ≤ confidence < 0.85`, and `notify`
iff `confidence < 0.70`. -/
theorem determineAction_thresholds (analysis : AnalysisResult)
    (repo : String) (issue : Issue) (repoConf : RepoConfig)
    (hclar : analysis.needsClarification = [])
    (hfix : analysis.autoFixable = true)
    (hpat : matchesNoAutoFix repo (issue.title.getD "") (issue.body.getD "") =
      .ok false)
    (hspawn : repoConf.autoSpawnEnabled = true) :
    (determineAction analysis repo issue repoConf = .ok .autoSpawn ↔
      thresholds.autoSpawn ≤ analysis.confidence) ∧
    (determineAction analysis repo issue repoConf = .ok .offerFix ↔
      thresholds.offerFix ≤ analysis.confidence ∧
        analysis.confidence < thresholds.autoSpawn) ∧
    (determineAction analysis repo issue repoConf = .ok .notify ↔
      analysis.confidence < thresholds.offerFix) := by
  have hof : thresholds.offerFix ≤ thresholds.autoSpawn := by decide
  unfold determineAction
  rw [hpat]
  simp [hclar, hfix, hspawn]
  by_cases h85 : thresholds.autoSpawn ≤ analysis.confidence
  · simp [h85]
    exact le_trans hof h85
  · by_cases h70 : thresholds.offerFix ≤ analysis.confidence
    · simp [h85, h70, not_le.mp h85]
    · simp [h85, h70]
      exact not_le.mp h70

/-- Witness for C2: confidence exactly `0.85` on a clean auto-fixable issue
in an auto-spawn-enabled repository yields `auto-spawn`. -/
theorem determineAction_thresholds_w :
    determineAction ⟨"bug", "low", true, mkRat 85 100, "r", [], [], none⟩
      "idynic" ⟨some "Fix crash", some ""⟩
      ⟨true, true, "high", "/home/jeff/projects/idynic", standardPatterns⟩ =
      .ok .autoSpawn :=
  (determineAction_thresholds _ _ _ _ rfl rfl (by rfl) rfl).1.mpr (by decide)

/-- C3: with no open questions and `autoFixable = true`, if the title
concatenated with the body (single space separator) matches one of the
repository's no-auto-fix patterns, `determineAction` returns `notify`,
whatever the confidence and `autoSpawnEnabled` may be. -/
theorem determineAction_sensitive_override (analysis : AnalysisResult)
    (repo : String) (issue : Issue) (repoConf : RepoConfig)
    (hclar : analysis.needsClarification = [])
    (hfix : analysis.autoFixable = true)
    (hpat : matchesNoAutoFix repo (issue.title.getD "") (issue.body.getD "") =
      .ok true) :
    determineAction analysis repo issue repoConf = .ok .notify := by
  unfold determineAction
  rw [hpat]
  simp [hclar, hfix]

/-- Witness for C3: an issue titled "Security hole in login" with confidence
`0.95`, auto-fixable, in the auto-spawn-enabled `idynic` repository, is still
routed to `notify`. -/
theorem determineAction_sensitive_override_w :
    determineAction ⟨"bug", "high", true, mkRat 95 100, "r", [], [], none⟩
      "idynic" ⟨some "Security hole in login", some ""⟩
      ⟨true, true, "high", "/home/jeff/projects/idynic", standardPatterns⟩ =
      .ok .notify :=
  determineAction_sensitive_override _ _ _ _ rfl rfl (by rfl)

/-! ## Claims about the policy store -/

/-- C8 (code bug in `getRepoConfig`): the lookup is not total over repository
names.  For the name `"toString"` — absent from the configuration table —
`repoConfig["toString"]` finds the inherited, truthy
`Object.prototype.toString`, so the `|| fallback` never fires: the caller
receives a value that is not a policy record at all (rather than the
documented disabled default), and `matchesNoAutoFix` then throws a
`TypeError` instead of returning a boolean. -/
theorem getRepoConfig_protoKey_bug :
    getRepoConfig "toString" = .protoValue ∧
    (∀ c : RepoConfig, getRepoConfig "toString" ≠ .conf c) ∧
    matchesNoAutoFix "toString" "t" "b" =
      .error "TypeError: noAutoFixPatterns is undefined" ∧
    getRepoConfig "no-such-repo" = .conf defaultRepoConfig := by
  refine ⟨rfl, ?_, rfl, rfl⟩
  intro c h
  rw [show getRepoConfig "toString" = .protoValue from rfl] at h
  exact JsConfigVal.noConfusion h

/-! ## Spawner (`src/spawner.js`) -/

/-- `Array.prototype.join('\n')`. -/
def joinLines : List String → String
  | [] => ""
  | [s] => s
  | s :: rest => s ++ "\n" ++ joinLines rest

/-- `generateFallbackPrompt` of `src/spawner.js`. -/
def generateFallbackPrompt (repo : String) (number : Nat)
    (analysis : AnalysisResult) : String :=
  let lines :=
    ["Fix GitHub issue atriumn/" ++ repo ++ "#" ++ toString number ++ ".",
     "",
     "## Issue Type: " ++ analysis.type,
     "## Severity: " ++ analysis.severity,
     "",
     "## Analysis",
     analysis.reasoning]
  let lines :=
    if analysis.acceptanceCriteria.length > 0 then
      lines ++ ["", "## Acceptance Criteria"] ++
        analysis.acceptanceCriteria.map (fun c => "- " ++ c)
    else lines
  let lines := lines ++
    ["", "## Instructions",
     "1. Read the relevant code and understand the issue",
     "2. Implement the fix",
     "3. Run existing tests to verify nothing breaks",
     "4. Commit with a clear message referencing the issue"]
  joinLines lines

/-- The prompt selected by `spawnRalphForIssue` of `src/spawner.js`:
`analysis.ralphPrompt || generateFallbackPrompt(repo, number, analysis)`.
JS `||` takes the fallback both for `null` and for the empty string. -/
def spawnPromptForIssue (repo : String) (number : Nat)
    (analysis : AnalysisResult) : String :=
  match analysis.ralphPrompt with
  | some s => if s = "" then generateFallbackPrompt repo number analysis else s
  | none => generateFallbackPrompt repo number analysis

theorem length_joinLines_head (x : String) (xs : List String) :
    x.length ≤ (joinLines (x :: xs)).length := by
  cases xs with
  | nil => simp [joinLines]
  | cons y ys =>
    simp [joinLines, String.length_append]
    omega

theorem joinLines_ne_empty_of_head (x : String) (xs : List String)
    (hx : 0 < x.length) : joinLines (x :: xs) ≠ "" := by
  intro h
  have hl := congrArg String.length h
  have hle := length_joinLines_head x xs
  simp at hl
  omega

theorem generateFallbackPrompt_ne_empty (repo : String) (number : Nat)
    (analysis : AnalysisResult) :
    generateFallbackPrompt repo number analysis ≠ "" := by
  have hx : 0 < ("Fix GitHub issue atriumn/" ++ repo ++ "#" ++
      toString number ++ ".").length := by
    have h1 : 0 < ("Fix GitHub issue atriumn/").length := by decide
    simp [String.length_append]
    omega
  unfold generateFallbackPrompt
  by_cases hac : analysis.acceptanceCriteria.length > 0 <;>
    simp only [hac, reduceIte, List.cons_append, List.append_assoc] <;>
    exact joinLines_ne_empty_of_head _ _ hx

/-- C10: `spawnRalphForIssue` uses the deterministic fallback prompt whenever
`analysis.ralphPrompt` is falsy — `null` or the empty string — and the
resulting prompt handed to the spawn script is always non-empty. -/
theorem spawnPrompt_fallback_nonempty (repo : String) (number : Nat)
    (analysis : AnalysisResult) :
    ((analysis.ralphPrompt = none ∨ analysis.ralphPrompt = some "") →
      spawnPromptForIssue repo number analysis =
        generateFallbackPrompt repo number analysis) ∧
    spawnPromptForIssue repo number analysis ≠ "" := by
  constructor
  · rintro (h | h) <;> simp [spawnPromptForIssue, h]
  · unfold spawnPromptForIssue
    match hrp : analysis.ralphPrompt with
    | none => exact generateFallbackPrompt_ne_empty _ _ _
    | some s =>
      by_cases hs : s = ""
      · simpa [hs] using generateFallbackPrompt_ne_empty repo number analysis
      · simp [hs]

/-- Witness for C10: an analysis whose `ralphPrompt` is the empty string is
given the fallback prompt. -/
theorem spawnPrompt_fallback_nonempty_w :
    spawnPromptForIssue "idynic" 42
        ⟨"bug", "high", true, mkRat 9 10, "r", ["Fix the bug"], [], some ""⟩ =
      generateFallbackPrompt "idynic" 42
        ⟨"bug", "high", true, mkRat 9 10, "r", ["Fix the bug"], [], some ""⟩ ∧
    spawnPromptForIssue "idynic" 42
        ⟨"bug", "high", true, mkRat 9 10, "r", ["Fix the bug"], [], some ""⟩ ≠ "" :=
  ⟨(spawnPrompt_fallback_nonempty _ _ _).1 (Or.inr rfl),
   (spawnPrompt_fallback_nonempty _ _ _).2⟩

/-! ## Deduplication cache (`src/index.js`) -/

/-- The dedup `Map`: key → admission timestamp (milliseconds). -/
abbrev ProcessedMap := List (String × Nat)

/-- `processed.get(key)`. -/
def processedGet (m : ProcessedMap) (key : String) : Option Nat :=
  List.lookup key m

/-- `processed.set(key, ts)`: replaces the value of an existing key in place
(JS `Map` keeps insertion order), otherwise appends. -/
def processedSet (m : ProcessedMap) (key : String) (ts : Nat) : ProcessedMap :=
  if m.any (fun p => p.1 == key) then
    m.map (fun p => if p.1 == key then (key, ts) else p)
  else m ++ [(key, ts)]

/-- `DEDUP_TTL_MS = 24 * 60 * 60 * 1000`. -/
def DEDUP_TTL_MS : Nat := 24 * 60 * 60 * 1000

/-- `isDuplicate` of `src/index.js`:
`const ts = processed.get(key); if (ts && Date.now() - ts < DEDUP_TTL_MS)
return true; return false;` — note the JS truthiness test `ts &&`: a stored
timestamp of exactly `0` is falsy.  `Date.now()` is the `now` argument; a
negative JS difference compares below the TTL exactly like the truncated
`Nat` difference. -/
def isDuplicate (m : ProcessedMap) (key : String) (now : Nat) : Bool :=
  match processedGet m key with
  | some ts => ts != 0 && decide (now - ts < DEDUP_TTL_MS)
  | none => false

/-- `markProcessed` of `src/index.js`: `processed.set(key, Date.now())`. -/
def markProcessed (m : ProcessedMap) (key : String) (now : Nat) :
    ProcessedMap :=
  processedSet m key now

/-- The admission sequence performed by the webhook handlers of
`src/index.js`: `if (isDuplicate(key)) { skip } else { markProcessed(key) }`.
Returns whether the event was admitted together with the updated map. -/
def admitKey (m : ProcessedMap) (key : String) (now : Nat) :
    Bool × ProcessedMap :=
  if isDuplicate m key now then (false, m) else (true, markProcessed m key now)

theorem processedGet_set_self (m : ProcessedMap) (key : String) (ts : Nat) :
    processedGet (processedSet m key ts) key = some ts := by
  induction m with
  | nil => simp [processedSet, processedGet]
  | cons a t ih =>
    obtain ⟨k, v⟩ := a
    by_cases h : k = key
    · subst h
      simp [processedSet, processedGet, List.lookup]
    · have hne : (key == k) = false := by
        simp
        exact fun he => h he.symm
      by_cases ht : t.any (fun p => p.1 == key)
      · simp [processedSet, processedGet, List.lookup, h, ht, hne] at ih ⊢
        exact ih
      · simp [processedSet, processedGet, List.lookup, h, ht, hne] at ih ⊢
        exact ih

/-- C4: the dedup admission contract.  First part — with every stored
timestamp positive (as `Date.now()` always is), an admission attempt returns
`true` and records the current time under the key iff the key is absent or
its recorded time lies at least the 24-hour TTL in the past, and returns
`false` leaving the map unchanged otherwise.  Second part — for any key that
is initially absent: a first attempt admits, a second attempt within the
24-hour window is refused, and a third attempt made once the recorded time is
more than 24 hours in the past admits again. -/
theorem dedup_admit_contract :
    (∀ (m : ProcessedMap) (key : String) (now : Nat),
      (∀ ts, processedGet m key = some ts → 0 < ts) →
      (((admitKey m key now).1 = true ↔
          (processedGet m key = none ∨
           ∃ ts, processedGet m key = some ts ∧ DEDUP_TTL_MS ≤ now - ts)) ∧
       ((admitKey m key now).1 = true →
          (admitKey m key now).2 = markProcessed m key now) ∧
       ((admitKey m key now).1 = false → (admitKey m key now).2 = m))) ∧
    (∀ (m : ProcessedMap) (key : String) (t1 t2 t3 : Nat),
      processedGet m key = none → 0 < t1 →
      t2 - t1 < DEDUP_TTL_MS → DEDUP_TTL_MS < t3 - t1 →
      ((admitKey m key t1).1 = true ∧
       (admitKey (admitKey m key t1).2 key t2).1 = false ∧
       (admitKey (admitKey m key t1).2 key t2).2 = (admitKey m key t1).2 ∧
       (admitKey (admitKey m key t1).2 key t3).1 = true)) := by
  constructor
  · intro m key now hwf
    unfold admitKey
    by_cases hd : isDuplicate m key now
    · simp [hd]
      unfold isDuplicate at hd
      match hg : processedGet m key with
      | none => rw [hg] at hd; simp at hd
      | some ts =>
        rw [hg] at hd
        simp at hd
        refine ⟨by simp, ?_⟩
        intro x hx
        injection hx with hx
        omega
    · simp [hd]
      unfold isDuplicate at hd
      match hg : processedGet m key with
      | none => exact Or.inl rfl
      | some ts =>
        rw [hg] at hd
        simp at hd
        have hpos := hwf ts hg
        refine Or.inr ⟨ts, rfl, ?_⟩
        have := hd (by omega)
        omega
  · intro m key t1 t2 t3 hnone h1 h2 h3
    have hd1 : isDuplicate m key t1 = false := by
      unfold isDuplicate
      rw [hnone]
    have e1 : admitKey m key t1 = (true, markProcessed m key t1) := by
      unfold admitKey
      rw [hd1]
      simp
    have hget : processedGet (markProcessed m key t1) key = some t1 :=
      processedGet_set_self m key t1
    have hd2 : isDuplicate (markProcessed m key t1) key t2 = true := by
      unfold isDuplicate
      rw [hget]
      simp
      omega
    have hd3 : isDuplicate (markProcessed m key t1) key t3 = false := by
      unfold isDuplicate
      rw [hget]
      simp
      omega
    rw [e1]
    refine ⟨rfl, ?_, ?_, ?_⟩
    · show (admitKey (markProcessed m key t1) key t2).1 = false
      unfold admitKey
      rw [hd2]
      simp
    · show (admitKey (markProcessed m key t1) key t2).2 = markProcessed m key t1
      unfold admitKey
      rw [hd2]
      simp
    · show (admitKey (markProcessed m key t1) key t3).1 = true
      unfold admitKey
      rw [hd3]
      simp

/-- Witness for C4 (second part of the contract at concrete inputs): key
`"idynic#42"` on the empty map, admitted at `t=1000`, refused at `t=1001`,
admitted again at `t = 1000 + TTL + 1`. -/
theorem dedup_admit_contract_w :
    ((admitKey [] "idynic#42" 1000).1 = true ∧
     (admitKey (admitKey [] "idynic#42" 1000).2 "idynic#42" 1001).1 = false ∧
     (admitKey (admitKey [] "idynic#42" 1000).2 "idynic#42" 1001).2 =
       (admitKey [] "idynic#42" 1000).2 ∧
     (admitKey (admitKey [] "idynic#42" 1000).2 "idynic#42"
       (1000 + DEDUP_TTL_MS + 1)).1 = true) :=
  dedup_admit_contract.2 [] "idynic#42" 1000 1001 (1000 + DEDUP_TTL_MS + 1)
    rfl (by decide) (by decide) (by simp [DEDUP_TTL_MS])

/-! ## Webhook handler for `issues.opened` (`src/index.js`, `buildServer`) -/

/-- The in-memory metrics counters. -/
structure Metrics where
  issuesReceived : Nat
  issuesProcessed : Nat
  issuesSkipped : Nat
  autoSpawned : Nat
  clarificationsPosted : Nat
  errors : Nat

/-- The mutable server state: dedup map and metrics. -/
structure ServerState where
  processed : ProcessedMap
  metrics : Metrics

/-- The handler's reply classes for an `issues` event. -/
inductive WebhookReply where
  | ignoredAction : WebhookReply
  | malformed : WebhookReply
  | repoNotEnabled : WebhookReply
  | alreadyProcessed : WebhookReply
  | processing : WebhookReply
deriving DecidableEq

/-- The dedup key `` `${repo}#${number}` `` used by
`isAlreadyProcessed` / `markProcessed` of `src/index.js`. -/
def issueKey (repo : String) (number : Nat) : String :=
  repo ++ "#" ++ toString number

/-- `isAlreadyProcessed(repo, number)` of `src/index.js`. -/
def isAlreadyProcessed (m : ProcessedMap) (repo : String) (number : Nat)
    (now : Nat) : Bool :=
  isDuplicate m (issueKey repo number) now

/-- `markProcessed(repo, number)` of `src/index.js` (the two-argument
variant of the webhook server). -/
def markProcessedIssue (m : ProcessedMap) (repo : String) (number : Nat)
    (now : Nat) : ProcessedMap :=
  markProcessed m (issueKey repo number) now

/-- The synchronous part of the `issues` branch of the `/webhook` handler in
`src/index.js` (`buildServer`): action filter, `issuesReceived` increment,
payload validation (`!repoName || !issueNumber`, where the empty string and
the number `0` are falsy), `enabled` policy check, dedup check, and the
admission `markProcessed(repoName, issueNumber)` performed before the
asynchronous pipeline is started. -/
def handleIssuesOpened (st : ServerState) (action : String)
    (repoName : Option String) (issueNumber : Option Nat) (now : Nat) :
    WebhookReply × ServerState :=
  if action ≠ "opened" then (.ignoredAction, st)
  else
    let st1 : ServerState :=
      { st with metrics.issuesReceived := st.metrics.issuesReceived + 1 }
    match repoName, issueNumber with
    | some repo, some num =>
      if repo = "" ∨ num = 0 then (.malformed, st1)
      else if jsEnabled (getRepoConfig repo) = false then
        (.repoNotEnabled,
         { st1 with metrics.issuesSkipped := st1.metrics.issuesSkipped + 1 })
      else if isAlreadyProcessed st1.processed repo num now then
        (.alreadyProcessed,
         { st1 with metrics.issuesSkipped := st1.metrics.issuesSkipped + 1 })
      else
        (.processing,
         { st1 with processed := markProcessedIssue st1.processed repo num now })
    | _, _ => (.malformed, st1)

/-- The `.catch` handler attached to the detached `processIssue(...)` call:
it only logs and bumps the error counter — the dedup map is untouched. -/
def pipelineFailed (st : ServerState) : ServerState :=
  { st with metrics.errors := st.metrics.errors + 1 }

/-- C9: when the asynchronous pipeline fails after admission, the failure
path does not modify the dedup map: the admitted key is still recorded with
its admission timestamp, and a replay of the same event within the 24-hour
window is rejected as a duplicate. -/
theorem pipeline_failure_preserves_dedup
    (st st1 : ServerState) (repo : String) (num : Nat) (now now' : Nat)
    (hrun : handleIssuesOpened st "opened" (some repo) (some num) now =
      (.processing, st1))
    (hpos : 0 < now) (hwin : now' - now < DEDUP_TTL_MS) :
    (pipelineFailed st1).processed = st1.processed ∧
    processedGet (pipelineFailed st1).processed (issueKey repo num) =
      some now ∧
    (handleIssuesOpened (pipelineFailed st1) "opened" (some repo) (some num)
      now').1 = .alreadyProcessed := by
  unfold handleIssuesOpened at hrun
  simp at hrun
  by_cases hmal : repo = "" ∨ num = 0
  · simp [hmal] at hrun
  · simp [hmal] at hrun
    by_cases hen : jsEnabled (getRepoConfig repo) = false
    · simp [hen] at hrun
    · simp [hen] at hrun
      by_cases hdup : isAlreadyProcessed st.processed repo num now
      · simp [hdup] at hrun
      · simp [hdup] at hrun
        have hproc : st1.processed =
            markProcessedIssue st.processed repo num now := by
          rw [← hrun]
        have hget : processedGet st1.processed (issueKey repo num) =
            some now := by
          rw [hproc]
          exact processedGet_set_self _ _ _
        refine ⟨rfl, hget, ?_⟩
        unfold handleIssuesOpened
        have hdup2 : isAlreadyProcessed (pipelineFailed st1).processed repo
            num now' = true := by
          show isAlreadyProcessed st1.processed repo num now' = true
          unfold isAlreadyProcessed isDuplicate
          rw [hget]
          simp
          omega
        simp [hmal, hen, hdup2]

/-- Witness for C9: starting from a fresh server state, the `idynic#42` event
is admitted at `t = 1000`; after a pipeline failure, a replay at `t = 1001`
is refused as already processed while the key stays recorded. -/
theorem pipeline_failure_preserves_dedup_w :
    (pipelineFailed (handleIssuesOpened ⟨[], ⟨0, 0, 0, 0, 0, 0⟩⟩ "opened"
        (some "idynic") (some 42) 1000).2).processed =
      (handleIssuesOpened ⟨[], ⟨0, 0, 0, 0, 0, 0⟩⟩ "opened" (some "idynic")
        (some 42) 1000).2.processed ∧
    processedGet (pipelineFailed (handleIssuesOpened ⟨[], ⟨0, 0, 0, 0, 0, 0⟩⟩
        "opened" (some "idynic") (some 42) 1000).2).processed
      (issueKey "idynic" 42) = some 1000 ∧
    (handleIssuesOpened (pipelineFailed (handleIssuesOpened
        ⟨[], ⟨0, 0, 0, 0, 0, 0⟩⟩ "opened" (some "idynic") (some 42) 1000).2)
      "opened" (some "idynic") (some 42) 1001).1 = .alreadyProcessed :=
  pipeline_failure_preserves_dedup ⟨[], ⟨0, 0, 0, 0, 0, 0⟩⟩ _ "idynic" 42
    1000 1001 (by rfl) (by decide) (by decide)

/-! ## Dispatch pipeline (`src/pipeline.js`) -/

/-- An attempted collaborator call of the pipeline. -/
inductive StepEv where
  | clarifyAttempt : StepEv
  | spawnAttempt : StepEv
  | notifyAttempt : StepEv
deriving DecidableEq

/-- The outcomes of the injected collaborators for one run of the pipeline:
the result of `triageIssue`, and the results `postClarification`,
`spawnRalphForIssue` and `notifyTriage` would produce if called. -/
structure PipelineEnv where
  triageResult : Except String (AnalysisResult × TriageAction)
  clarifyResult : Except String Unit
  spawnResult : Except String Unit
  notifyResult : Except String Unit

/-- `processIssue` of `src/pipeline.js`, with the trace of attempted
collaborator calls.  Step 1 awaits `triageIssue`; step 2 awaits the
action-specific collaborator (`postClarification` for `clarify`,
`spawnRalphForIssue` for `auto-spawn`, nothing for `offer-fix` / `notify`);
step 3 awaits `notifyTriage`.  A rejection at any `await` rejects the whole
pipeline immediately, skipping the remaining steps. -/
def processIssue (env : PipelineEnv) :
    Except String (TriageAction × AnalysisResult) × List StepEv :=
  match env.triageResult with
  | .error e => (.error e, [])
  | .ok (analysis, action) =>
    let step : Except String Unit × List StepEv :=
      match action with
      | .clarify => (env.clarifyResult, [.clarifyAttempt])
      | .autoSpawn => (env.spawnResult, [.spawnAttempt])
      | .offerFix => (.ok (), [])
      | .notify => (.ok (), [])
    match step with
    | (.error e, evs) => (.error e, evs)
    | (.ok _, evs) =>
      match env.notifyResult with
      | .error e => (.error e, evs ++ [.notifyAttempt])
      | .ok _ => (.ok (action, analysis), evs ++ [.notifyAttempt])

/-- A concrete analysis value used by the C5 counterexample. -/
def cexAnalysis : AnalysisResult :=
  ⟨"bug", "high", true, mkRat 95 100, "r", [], [], some "Fix it"⟩

/-- Counterexample to C5 as stated: for a decided `auto-spawn` event whose
fix invocation fails, `processIssue` rejects without ever attempting the
notification — mirroring the repository's own pipeline test
"propagates errors from spawnRalphForIssue". -/
theorem processIssue_spawn_failure_suppresses_notify :
    StepEv.spawnAttempt ∈
      (processIssue ⟨.ok (cexAnalysis, .autoSpawn), .ok (),
        .error "Spawn failed", .ok ()⟩).2 ∧
    StepEv.notifyAttempt ∉
      (processIssue ⟨.ok (cexAnalysis, .autoSpawn), .ok (),
        .error "Spawn failed", .ok ()⟩).2 ∧
    (processIssue ⟨.ok (cexAnalysis, .autoSpawn), .ok (),
        .error "Spawn failed", .ok ()⟩).1 = .error "Spawn failed" := by
  refine ⟨?_, ?_, rfl⟩ <;> simp [processIssue]

/-- C5 (amended): for every decided, non-duplicate issue event, whichever of
the four actions is executed, a notification attempt is made *provided the
action-specific step did not fail* (for `offer-fix` and `notify` there is no
such step, so notification is always attempted); when the fix invocation or
the clarification post fails, the pipeline instead rejects with that error
and the notification attempt is not made. -/
theorem processIssue_notify_last (env : PipelineEnv)
    (analysis : AnalysisResult) (action : TriageAction)
    (htr : env.triageResult = .ok (analysis, action)) :
    ((action = .clarify → env.clarifyResult = .ok ()) →
     (action = .autoSpawn → env.spawnResult = .ok ()) →
     StepEv.notifyAttempt ∈ (processIssue env).2) ∧
    (∀ e, action = .autoSpawn → env.spawnResult = .error e →
      StepEv.notifyAttempt ∉ (processIssue env).2 ∧
      (processIssue env).1 = .error e) ∧
    (∀ e, action = .clarify → env.clarifyResult = .error e →
      StepEv.notifyAttempt ∉ (processIssue env).2 ∧
      (processIssue env).1 = .error e) := by
  refine ⟨?_, ?_, ?_⟩
  · intro hcl hsp
    unfold processIssue
    rw [htr]
    cases action with
    | clarify =>
      rw [hcl rfl]
      cases hn : env.notifyResult <;> simp
    | autoSpawn =>
      rw [hsp rfl]
      cases hn : env.notifyResult <;> simp
    | offerFix =>
      cases hn : env.notifyResult <;> simp
    | notify =>
      cases hn : env.notifyResult <;> simp
  · intro e ha hsp
    subst ha
    unfold processIssue
    rw [htr, hsp]
    simp
  · intro e ha hcl
    subst ha
    unfold processIssue
    rw [htr, hcl]
    simp

/-- Witness for C5 (amended): a successfully spawned `auto-spawn` event and a
successfully posted `clarify` event both end with a notification attempt. -/
theorem processIssue_notify_last_w :
    StepEv.notifyAttempt ∈
      (processIssue ⟨.ok (cexAnalysis, .autoSpawn), .ok (), .ok (),
        .ok ()⟩).2 :=
  (processIssue_notify_last _ cexAnalysis .autoSpawn rfl).1
    (fun h => by cases h) (fun _ => rfl)

/-! ## `JSON.parse` (model of the builtin used by `parseAnalysisResult`)

The grammar is RFC 8259 JSON: a single value surrounded by optional
whitespace; strings with the standard escapes; numbers
`-?(0|[1-9][0-9]*)(.[0-9]+)?([eE][+-]?[0-9]+)?` read exactly into `Rat`.
A `\uXXXX` escape of a surrogate code point is rejected by the model (JS
would build a lone-surrogate string, which `Char` cannot represent; no field
of the analysis schema depends on this corner). -/

def digitsToNat (ds : List Char) : Nat :=
  ds.foldl (fun a c => a * 10 + (c.toNat - 48)) 0

def hexDigitToNat (c : Char) : Option Nat :=
  if c.isDigit then some (c.toNat - 48)
  else if 97 ≤ c.toNat && c.toNat ≤ 102 then some (c.toNat - 87)
  else if 65 ≤ c.toNat && c.toNat ≤ 70 then some (c.toNat - 55)
  else none

/-- The character-sequence body of a JSON string literal, after the opening
quote; returns the decoded characters and the input after the closing
quote. -/
def parseStrChars : List Char → Option (List Char × List Char)
  | [] => none
  | c :: rest =>
    if c == '"' then some ([], rest)
    else if c == '\\' then
      match rest with
      | [] => none
      | e :: rest2 =>
        if e == '"' || e == '\\' || e == '/' then
          match parseStrChars rest2 with
          | some (cs, r) => some (e :: cs, r)
          | none => none
        else if e == 'b' then
          match parseStrChars rest2 with
          | some (cs, r) => some (Char.ofNat 8 :: cs, r)
          | none => none
        else if e == 'f' then
          match parseStrChars rest2 with
          | some (cs, r) => some (Char.ofNat 12 :: cs, r)
          | none => none
        else if e == 'n' then
          match parseStrChars rest2 with
          | some (cs, r) => some (Char.ofNat 10 :: cs, r)
          | none => none
        else if e == 'r' then
          match parseStrChars rest2 with
          | some (cs, r) => some (Char.ofNat 13 :: cs, r)
          | none => none
        else if e == 't' then
          match parseStrChars rest2 with
          | some (cs, r) => some (Char.ofNat 9 :: cs, r)
          | none => none
        else if e == 'u' then
          match rest2 with
          | h1 :: h2 :: h3 :: h4 :: rest3 =>
            match hexDigitToNat h1, hexDigitToNat h2,
                hexDigitToNat h3, hexDigitToNat h4 with
            | some a, some b, some c', some d =>
              let n := ((a * 16 + b) * 16 + c') * 16 + d
              if 55296 ≤ n && n ≤ 57343 then none
              else
                match parseStrChars rest3 with
                | some (cs, r) => some (Char.ofNat n :: cs, r)
                | none => none
            | _, _, _, _ => none
          | _ => none
        else none
    else if c.toNat < 32 then none
    else
      match parseStrChars rest with
      | some (cs, r) => some (c :: cs, r)
      | none => none

/-- Assemble the parsed parts of a JSON number into a rational. -/
def buildRat (neg : Bool) (intPart : Nat) (fracDigits : List Char)
    (exp : Int) : Rat :=
  let mantNat : Nat := intPart * 10 ^ fracDigits.length + digitsToNat fracDigits
  let mant : Int := if neg then -(Int.ofNat mantNat) else Int.ofNat mantNat
  let e : Int := exp - Int.ofNat fracDigits.length
  if 0 ≤ e then mkRat (mant * Int.ofNat (10 ^ e.toNat)) 1
  else mkRat mant (10 ^ (-e).toNat)

/-- The optional exponent part of a JSON number, and final assembly. -/
def parseExpPart (neg : Bool) (intPart : Nat) (fracDigits : List Char) :
    List Char → Option (Rat × List Char)
  | c :: r =>
    if c == 'e' || c == 'E' then
      let (esign, r1) : Bool × List Char :=
        match r with
        | d :: r' =>
          if d == '+' then (false, r')
          else if d == '-' then (true, r')
          else (false, d :: r')
        | [] => (false, [])
      let es := r1.takeWhile Char.isDigit
      let r2 := r1.dropWhile Char.isDigit
      if es.isEmpty then none
      else
        let e : Int :=
          if esign then -(Int.ofNat (digitsToNat es))
          else Int.ofNat (digitsToNat es)
        some (buildRat neg intPart fracDigits e, r2)
    else some (buildRat neg intPart fracDigits 0, c :: r)
  | [] => some (buildRat neg intPart fracDigits 0, [])

/-- A JSON number literal (with the leading-zero restriction). -/
def parseNumber (l : List Char) : Option (Rat × List Char) :=
  let (neg, l1) : Bool × List Char :=
    match l with
    | c :: r => if c == '-' then (true, r) else (false, l)
    | [] => (false, l)
  let ds := l1.takeWhile Char.isDigit
  let l2 := l1.dropWhile Char.isDigit
  if ds.isEmpty then none
  else if ds.length > 1 && (ds.headD ' ' == '0') then none
  else
    match l2 with
    | c :: r =>
      if c == '.' then
        let fs := r.takeWhile Char.isDigit
        let l3 := r.dropWhile Char.isDigit
        if fs.isEmpty then none
        else parseExpPart neg (digitsToNat ds) fs l3
      else parseExpPart neg (digitsToNat ds) [] (c :: r)
    | [] => parseExpPart neg (digitsToNat ds) [] []

mutual

/-- A JSON value (fuelled recursive-descent parser). -/
def parseVal : Nat → List Char → Option (JsonVal × List Char)
  | 0, _ => none
  | Nat.succ fuel, l =>
    match dropWs l with
    | 'n' :: 'u' :: 'l' :: 'l' :: rest => some (.null, rest)
    | 't' :: 'r' :: 'u' :: 'e' :: rest => some (.bool true, rest)
    | 'f' :: 'a' :: 'l' :: 's' :: 'e' :: rest => some (.bool false, rest)
    | c :: rest =>
      if c == '"' then
        match parseStrChars rest with
        | some (cs, r) => some (.str (String.mk cs), r)
        | none => none
      else if c == '[' then parseElems fuel rest
      else if c == Char.ofNat 123 then parseMembers fuel rest
      else
        match parseNumber (c :: rest) with
        | some (q, r) => some (.num q, r)
        | none => none
    | [] => none

/-- The inside of an array, after the opening bracket. -/
def parseElems : Nat → List Char → Option (JsonVal × List Char)
  | 0, _ => none
  | Nat.succ fuel, l =>
    match dropWs l with
    | c :: rest =>
      if c == ']' then some (.arr [], rest)
      else
        match parseElemsNE fuel l with
        | some (xs, r) => some (.arr xs, r)
        | none => none
    | [] => none

/-- A non-empty comma-separated element list followed by `]`. -/
def parseElemsNE : Nat → List Char → Option (List JsonVal × List Char)
  | 0, _ => none
  | Nat.succ fuel, l =>
    match parseVal fuel l with
    | none => none
    | some (v, r) =>
      match dropWs r with
      | c :: r2 =>
        if c == ',' then
          match parseElemsNE fuel r2 with
          | some (vs, r3) => some (v :: vs, r3)
          | none => none
        else if c == ']' then some ([v], r2)
        else none
      | [] => none

/-- The inside of an object, after the opening brace. -/
def parseMembers : Nat → List Char → Option (JsonVal × List Char)
  | 0, _ => none
  | Nat.succ fuel, l =>
    match dropWs l with
    | c :: rest =>
      if c == Char.ofNat 125 then some (.obj [], rest)
      else
        match parseMembersNE fuel l with
        | some (fs, r) => some (.obj fs, r)
        | none => none
    | [] => none

/-- A non-empty comma-separated member list followed by the closing brace. -/
def parseMembersNE : Nat → List Char → Option (JFields × List Char)
  | 0, _ => none
  | Nat.succ fuel, l =>
    match dropWs l with
    | c :: rest =>
      if c == '"' then
        match parseStrChars rest with
        | none => none
        | some (key, r1) =>
          match dropWs r1 with
          | c2 :: r2 =>
            if c2 == ':' then
              match parseVal fuel r2 with
              | none => none
              | some (v, r3) =>
                match dropWs r3 with
                | c3 :: r4 =>
                  if c3 == ',' then
                    match parseMembersNE fuel r4 with
                    | some (fs, r5) => some ((String.mk key, v) :: fs, r5)
                    | none => none
                  else if c3 == Char.ofNat 125 then
                    some ([(String.mk key, v)], r4)
                  else none
                | [] => none
            else none
          | [] => none
      else none
    | [] => none

end

/-- `JSON.parse` on a character list: optional surrounding whitespace is
removed, then exactly one value must span the whole remainder. -/
def jsonParseL (l : List Char) : Except String JsonVal :=
  let cs := trimWs l
  match parseVal (3 * cs.length + 3) cs with
  | some (v, rest) =>
    if (dropWs rest).isEmpty then .ok v
    else .error "Unexpected non-whitespace character after JSON"
  | none => .error "Unexpected token in JSON"

/-! ## `parseAnalysisResult` (`src/analyzer.js`) -/

/-- Three backticks. -/
def fenceChars : List Char := [Char.ofNat 96, Char.ofNat 96, Char.ofNat 96]

/-- The replacement `cleaned.replace(/^```(?:json)?\s*\n?/, '')`, applied when
`cleaned` starts with three backticks: the backticks, an optional literal
`json`, and the greedy whitespace run after them (which subsumes the optional
final newline) are removed. -/
def stripLeadingFence (l : List Char) : List Char :=
  let l1 := l.drop 3
  let l2 := if ['j', 's', 'o', 'n'].isPrefixOf l1 then l1.drop 4 else l1
  dropWs l2

/-- The replacement `.replace(/\n?```\s*$/, '')`: when the string, after its
trailing whitespace, ends with three backticks, that final fence, one
optional newline immediately before it, and the trailing whitespace after it
are removed; otherwise the string is unchanged. -/
def stripTrailingFence (l : List Char) : List Char :=
  let r := dropWs l.reverse
  if fenceChars.isPrefixOf r then
    let r2 := r.drop 3
    let r3 := match r2 with
      | c :: t => if c == Char.ofNat 10 then t else r2
      | [] => r2
    r3.reverse
  else l

/-- Lines 123–127 of `src/analyzer.js`: `text.trim()`, then fence stripping
when the trimmed text starts with three backticks. -/
def stripFences (l : List Char) : List Char :=
  let cleaned := trimWs l
  if fenceChars.isPrefixOf cleaned then
    stripTrailingFence (stripLeadingFence cleaned)
  else cleaned

/-- The `required` list of `parseAnalysisResult`. -/
def requiredFields : List String :=
  ["type", "severity", "autoFixable", "confidence", "reasoning",
   "acceptanceCriteria", "needsClarification", "ralphPrompt"]

/-- `field in parsed` (all required names are own-property names, so the
prototype chain is irrelevant here). -/
def jHas (fields : JFields) (name : String) : Bool :=
  fields.any (fun p => p.1 == name)

/-- `parsed[name]`; JSON.parse keeps the last of duplicate keys. -/
def jGet (fields : JFields) (name : String) : JsonVal :=
  match List.lookup name fields.reverse with
  | some v => v
  | none => .null

/-- `validTypes` of `parseAnalysisResult`. -/
def validTypes : List String :=
  ["bug", "feature", "enhancement", "question", "docs", "chore"]

/-- `validSeverities` of `parseAnalysisResult`. -/
def validSeverities : List String := ["critical", "high", "medium", "low"]

/-- `validXs.includes(v)` — false for any non-string value. -/
def isEnumStr (vals : List String) : JsonVal → Bool
  | .str s => vals.contains s
  | _ => false

/-- `typeof v === 'boolean'`. -/
def isJBool : JsonVal → Bool
  | .bool _ => true
  | _ => false

/-- `Array.isArray(v)`. -/
def isJArr : JsonVal → Bool
  | .arr _ => true
  | _ => false

/-- `typeof v === 'number' && !(v < 0) && !(v > 1)` — the validation
performed on `confidence`. -/
def confInRange : JsonVal → Bool
  | .num q => !(decide (q < mkRat 0 1)) && !(decide (mkRat 1 1 < q))
  | _ => false

/-- The first required field missing from the parsed object (the validation
loop throws at the first one, in list order). -/
def missingReq (fields : JFields) : Option String :=
  requiredFields.find? (fun f => !(jHas fields f))

/-- Lines 131–166 of `src/analyzer.js`: required-field presence, `type` and
`severity` enum membership, `autoFixable` boolean-ness, `confidence` range,
and array-ness of `acceptanceCriteria` and `needsClarification`; the parsed
object itself is returned on success.  (`reasoning` and `ralphPrompt` get no
type check in the source.) -/
def validateAnalysis (fields : JFields) : Except String JFields :=
  match missingReq fields with
  | some f => .error ("Missing required field: " ++ f)
  | none =>
    if isEnumStr validTypes (jGet fields "type") = false then
      .error "Invalid type"
    else if isEnumStr validSeverities (jGet fields "severity") = false then
      .error "Invalid severity"
    else if isJBool (jGet fields "autoFixable") = false then
      .error "autoFixable must be a boolean"
    else if confInRange (jGet fields "confidence") = false then
      .error "confidence must be a number between 0 and 1"
    else if isJArr (jGet fields "acceptanceCriteria") = false then
      .error "acceptanceCriteria must be an array"
    else if isJArr (jGet fields "needsClarification") = false then
      .error "needsClarification must be an array"
    else .ok fields

/-- `parseAnalysisResult` of `src/analyzer.js`: strip fences, `JSON.parse`,
validate.  A parsed non-object makes the `field in parsed` loop throw a
`TypeError` (primitives) or report the first field missing (arrays). -/
def parseAnalysisResult (text : String) : Except String JFields :=
  match jsonParseL (stripFences text.toList) with
  | .error e => .error e
  | .ok (.obj fields) => validateAnalysis fields
  | .ok (.arr _) => .error "Missing required field: type"
  | .ok _ => .error "TypeError: cannot use in operator on a primitive"

/-- Wrapping in a ```` ```json ```` fence, as P7 describes. -/
def fenceJson (s : String) : String := "```json\n" ++ s ++ "\n```"

/-- Wrapping in a plain ```` ``` ```` fence. -/
def fencePlain (s : String) : String := "```\n" ++ s ++ "\n```"

theorem validateAnalysis_ok_sound (fields fields' : JFields)
    (h : validateAnalysis fields = .ok fields') :
    missingReq fields = none ∧
    isEnumStr validTypes (jGet fields "type") = true ∧
    isEnumStr validSeverities (jGet fields "severity") = true ∧
    isJBool (jGet fields "autoFixable") = true ∧
    confInRange (jGet fields "confidence") = true ∧
    isJArr (jGet fields "acceptanceCriteria") = true ∧
    isJArr (jGet fields "needsClarification") = true := by
  unfold validateAnalysis at h
  match hm : missingReq fields with
  | some f => rw [hm] at h; simp at h
  | none =>
    rw [hm] at h
    refine ⟨rfl, ?_⟩
    split at h
    · simp at h
    next h1 =>
      split at h
      · simp at h
      next h2 =>
        split at h
        · simp at h
        next h3 =>
          split at h
          · simp at h
          next h4 =>
            split at h
            · simp at h
            next h5 =>
              split at h
              · simp at h
              next h6 =>
                split at h
                · simp at h
                next h7 =>
                  simp_all

/-- C6: `parseAnalysisResult` rejects every parsed JSON object that is
missing one of the eight required fields, or whose `type` or `severity` falls
outside its closed enum, or whose `confidence` is not a number inside
`[0, 1]`, or whose `acceptanceCriteria` or `needsClarification` is not an
array: no classification is produced for any such object. -/
theorem parseAnalysisResult_schema_rejection (text : String)
    (fields : JFields)
    (hparse : jsonParseL (stripFences text.toList) = .ok (.obj fields))
    (hbad : (∃ f ∈ requiredFields, jHas fields f = false) ∨
      isEnumStr validTypes (jGet fields "type") = false ∨
      isEnumStr validSeverities (jGet fields "severity") = false ∨
      confInRange (jGet fields "confidence") = false ∨
      isJArr (jGet fields "acceptanceCriteria") = false ∨
      isJArr (jGet fields "needsClarification") = false) :
    ∃ e, parseAnalysisResult text = .error e := by
  unfold parseAnalysisResult
  rw [hparse]
  show ∃ e, validateAnalysis fields = Except.error e
  match hv : validateAnalysis fields with
  | .error e => exact ⟨e, rfl⟩
  | .ok f' =>
    exfalso
    obtain ⟨hm, h1, h2, h3, h4, h5, h6⟩ := validateAnalysis_ok_sound fields f' hv
    rcases hbad with ⟨f, hf, hnf⟩ | hb | hb | hb | hb | hb
    · have hfind := List.find?_eq_none.mp hm f hf
      simp at hfind
      rw [hnf] at hfind
      cases hfind
    · rw [h1] at hb; cases hb
    · rw [h2] at hb; cases hb
    · rw [h4] at hb; cases hb
    · rw [h5] at hb; cases hb
    · rw [h6] at hb; cases hb

/-- The classifier output used by the C6 witness: syntactically valid JSON
with all eight fields but `confidence: 1.5`. -/
def badConfText : String :=
  "\x7b\"type\":\"bug\",\"severity\":\"low\",\"autoFixable\":true," ++
  "\"confidence\":1.5,\"reasoning\":\"r\",\"acceptanceCriteria\":[]," ++
  "\"needsClarification\":[],\"ralphPrompt\":null\x7d"

set_option maxRecDepth 100000 in
/-- Witness for C6: the out-of-range confidence `1.5` is rejected. -/
theorem parseAnalysisResult_schema_rejection_w :
    ∃ e, parseAnalysisResult badConfText = .error e :=
  parseAnalysisResult_schema_rejection badConfText _ (by rfl)
    (Or.inr (Or.inr (Or.inr (Or.inl (by rfl)))))

/-! ## Whitespace lemmas used by the fence-invariance claim -/

theorem dropWs_cons_of_ws (c : Char) (l : List Char) (h : isWsChar c = true) :
    dropWs (c :: l) = dropWs l := by
  simp [dropWs, List.dropWhile_cons, h]

theorem dropWs_cons_of_not_ws (c : Char) (l : List Char)
    (h : isWsChar c = false) : dropWs (c :: l) = c :: l := by
  simp [dropWs, List.dropWhile_cons, h]

theorem dropWs_append_of_nil (l1 l2 : List Char) (h : dropWs l1 = []) :
    dropWs (l1 ++ l2) = dropWs l2 := by
  induction l1 with
  | nil => simp
  | cons c t ih =>
    by_cases hc : isWsChar c = true
    · rw [dropWs_cons_of_ws c t hc] at h
      rw [List.cons_append, dropWs_cons_of_ws c (t ++ l2) hc]
      exact ih h
    · rw [dropWs_cons_of_not_ws c t (by simpa using hc)] at h
      cases h

theorem dropWs_append_of_cons (l1 l2 : List Char) (c : Char) (t : List Char)
    (h : dropWs l1 = c :: t) : dropWs (l1 ++ l2) = c :: (t ++ l2) := by
  induction l1 with
  | nil => simp [dropWs] at h
  | cons a u ih =>
    by_cases ha : isWsChar a = true
    · rw [dropWs_cons_of_ws a u ha] at h
      rw [List.cons_append, dropWs_cons_of_ws a (u ++ l2) ha]
      exact ih h
    · rw [dropWs_cons_of_not_ws a u (by simpa using ha)] at h
      injection h with h1 h2
      rw [List.cons_append,
        dropWs_cons_of_not_ws a (u ++ l2) (by simpa using ha), h1, h2]

theorem dropWs_head_not_ws (l : List Char) (c : Char) (t : List Char)
    (h : dropWs l = c :: t) : isWsChar c = false := by
  induction l with
  | nil => simp [dropWs] at h
  | cons a u ih =>
    by_cases ha : isWsChar a = true
    · rw [dropWs_cons_of_ws a u ha] at h
      exact ih h
    · rw [dropWs_cons_of_not_ws a u (by simpa using ha)] at h
      injection h with h1 _
      subst h1
      simpa using ha

theorem dropWs_idem (l : List Char) : dropWs (dropWs l) = dropWs l := by
  match h : dropWs l with
  | [] => simp [dropWs]
  | c :: t =>
    exact dropWs_cons_of_not_ws c t (dropWs_head_not_ws l c t h)

theorem length_dropWs_le (l : List Char) : (dropWs l).length ≤ l.length := by
  induction l with
  | nil => simp [dropWs]
  | cons a u ih =>
    by_cases ha : isWsChar a = true
    · rw [dropWs_cons_of_ws a u ha]
      simp
      omega
    · rw [dropWs_cons_of_not_ws a u (by simpa using ha)]

theorem dropWsEnd_head (l : List Char) :
    dropWsEnd l = [] ∨ (dropWsEnd l).head? = l.head? := by
  cases l with
  | nil => exact Or.inl rfl
  | cons a t =>
    unfold dropWsEnd
    match h : dropWs (t.reverse) with
    | [] =>
      have : dropWs ((a :: t).reverse) = dropWs [a] := by
        rw [List.reverse_cons]
        exact dropWs_append_of_nil t.reverse [a] h
      by_cases ha : isWsChar a = true
      · rw [this, dropWs_cons_of_ws a [] ha]
        exact Or.inl rfl
      · rw [this, dropWs_cons_of_not_ws a [] (by simpa using ha)]
        exact Or.inr rfl
    | c :: u =>
      have : dropWs ((a :: t).reverse) = c :: (u ++ [a]) := by
        rw [List.reverse_cons]
        exact dropWs_append_of_cons t.reverse [a] c u h
      rw [this]
      refine Or.inr ?_
      simp

theorem dropWs_dropWsEnd (l : List Char) (hl : dropWs l = l) :
    dropWs (dropWsEnd l) = dropWsEnd l := by
  match hE : dropWsEnd l with
  | [] => simp [dropWs]
  | c :: t =>
    rcases dropWsEnd_head l with h | h
    · rw [hE] at h
      cases h
    · rw [hE] at h
      match l, hl with
      | [], _ => simp [dropWsEnd, dropWs] at hE
      | a :: u, hl =>
        simp at h
        subst h
        refine dropWs_cons_of_not_ws c t ?_
        by_cases hc : isWsChar c = true
        · exfalso
          rw [dropWs_cons_of_ws c u hc] at hl
          have := length_dropWs_le u
          have := congrArg List.length hl
          simp at this
          omega
        · simpa using hc

theorem dropWsEnd_idem (l : List Char) :
    dropWsEnd (dropWsEnd l) = dropWsEnd l := by
  unfold dropWsEnd
  rw [List.reverse_reverse, dropWs_idem]

theorem trimWs_idem (l : List Char) : trimWs (trimWs l) = trimWs l := by
  unfold trimWs
  rw [dropWs_dropWsEnd (dropWs l) (dropWs_idem l), dropWsEnd_idem]

theorem trimWs_of_ends (c d : Char) (mid : List Char)
    (hc : isWsChar c = false) (hd : isWsChar d = false) :
    trimWs (c :: (mid ++ [d])) = c :: (mid ++ [d]) := by
  unfold trimWs dropWsEnd
  rw [dropWs_cons_of_not_ws c (mid ++ [d]) hc]
  have hrev : (c :: (mid ++ [d])).reverse = d :: (mid.reverse ++ [c]) := by
    simp
  rw [hrev, dropWs_cons_of_not_ws d (mid.reverse ++ [c]) hd]
  simp

theorem jsonParseL_congr (l1 l2 : List Char) (h : trimWs l1 = trimWs l2) :
    jsonParseL l1 = jsonParseL l2 := by
  unfold jsonParseL
  rw [h]

theorem stripTrailingFence_body (body : List Char) :
    stripTrailingFence (dropWs (body ++ [Char.ofNat 10, Char.ofNat 96,
      Char.ofNat 96, Char.ofNat 96])) = dropWs body := by
  have hbt : isWsChar (Char.ofNat 96) = false := by decide
  have hnl : isWsChar (Char.ofNat 10) = true := by decide
  match hd : dropWs body with
  | [] =>
    rw [dropWs_append_of_nil body _ hd]
    rw [dropWs_cons_of_ws _ _ hnl,
      dropWs_cons_of_not_ws _ _ hbt]
    decide
  | c :: t =>
    rw [dropWs_append_of_cons body _ c t hd]
    unfold stripTrailingFence
    have hrev : (c :: (t ++ [Char.ofNat 10, Char.ofNat 96, Char.ofNat 96,
        Char.ofNat 96])).reverse =
        Char.ofNat 96 :: Char.ofNat 96 :: Char.ofNat 96 :: Char.ofNat 10 ::
          (t.reverse ++ [c]) := by
      simp
    rw [hrev, dropWs_cons_of_not_ws _ _ hbt]
    simp [fenceChars, List.isPrefixOf]

theorem stripFences_json_body (body : List Char) :
    stripFences ([Char.ofNat 96, Char.ofNat 96, Char.ofNat 96, 'j', 's', 'o',
      'n', Char.ofNat 10] ++ (body ++ [Char.ofNat 10, Char.ofNat 96,
      Char.ofNat 96, Char.ofNat 96])) = dropWs body := by
  have hbt : isWsChar (Char.ofNat 96) = false := by decide
  have hnl : isWsChar (Char.ofNat 10) = true := by decide
  have hshape : [Char.ofNat 96, Char.ofNat 96, Char.ofNat 96, 'j', 's', 'o',
      'n', Char.ofNat 10] ++ (body ++ [Char.ofNat 10, Char.ofNat 96,
      Char.ofNat 96, Char.ofNat 96]) =
      Char.ofNat 96 :: (([Char.ofNat 96, Char.ofNat 96, 'j', 's', 'o', 'n',
        Char.ofNat 10] ++ body ++ [Char.ofNat 10, Char.ofNat 96,
        Char.ofNat 96]) ++ [Char.ofNat 96]) := by
    simp
  have hpre : fenceChars.isPrefixOf
      ([Char.ofNat 96, Char.ofNat 96, Char.ofNat 96, 'j', 's', 'o', 'n',
        Char.ofNat 10] ++ (body ++ [Char.ofNat 10, Char.ofNat 96,
        Char.ofNat 96, Char.ofNat 96])) = true := by
    simp [fenceChars, List.isPrefixOf]
  have hlead : stripLeadingFence
      ([Char.ofNat 96, Char.ofNat 96, Char.ofNat 96, 'j', 's', 'o', 'n',
        Char.ofNat 10] ++ (body ++ [Char.ofNat 10, Char.ofNat 96,
        Char.ofNat 96, Char.ofNat 96])) =
      dropWs (body ++ [Char.ofNat 10, Char.ofNat 96, Char.ofNat 96,
        Char.ofNat 96]) := by
    unfold stripLeadingFence
    simp [List.isPrefixOf]
    rw [dropWs_cons_of_ws _ _ hnl]
  unfold stripFences
  rw [hshape, trimWs_of_ends _ _ _ hbt hbt, ← hshape]
  simp only [hpre, if_true]
  rw [hlead]
  exact stripTrailingFence_body body

theorem stripFences_plain_body (body : List Char) :
    stripFences ([Char.ofNat 96, Char.ofNat 96, Char.ofNat 96,
      Char.ofNat 10] ++ (body ++ [Char.ofNat 10, Char.ofNat 96,
      Char.ofNat 96, Char.ofNat 96])) = dropWs body := by
  have hbt : isWsChar (Char.ofNat 96) = false := by decide
  have hnl : isWsChar (Char.ofNat 10) = true := by decide
  have hshape : [Char.ofNat 96, Char.ofNat 96, Char.ofNat 96,
      Char.ofNat 10] ++ (body ++ [Char.ofNat 10, Char.ofNat 96,
      Char.ofNat 96, Char.ofNat 96]) =
      Char.ofNat 96 :: (([Char.ofNat 96, Char.ofNat 96, Char.ofNat 10] ++
        body ++ [Char.ofNat 10, Char.ofNat 96, Char.ofNat 96]) ++
        [Char.ofNat 96]) := by
    simp
  have hpre : fenceChars.isPrefixOf
      ([Char.ofNat 96, Char.ofNat 96, Char.ofNat 96, Char.ofNat 10] ++
        (body ++ [Char.ofNat 10, Char.ofNat 96, Char.ofNat 96,
          Char.ofNat 96])) = true := by
    simp [fenceChars, List.isPrefixOf]
  have hlead : stripLeadingFence
      ([Char.ofNat 96, Char.ofNat 96, Char.ofNat 96, Char.ofNat 10] ++
        (body ++ [Char.ofNat 10, Char.ofNat 96, Char.ofNat 96,
          Char.ofNat 96])) =
      dropWs (body ++ [Char.ofNat 10, Char.ofNat 96, Char.ofNat 96,
        Char.ofNat 96]) := by
    unfold stripLeadingFence
    have hnj : (['j', 's', 'o', 'n'].isPrefixOf
        (Char.ofNat 10 :: (body ++ [Char.ofNat 10, Char.ofNat 96,
          Char.ofNat 96, Char.ofNat 96]))) = false := by
      simp [List.isPrefixOf]
    simp [hnj]
    rw [dropWs_cons_of_ws _ _ hnl]
  unfold stripFences
  rw [hshape, trimWs_of_ends _ _ _ hbt hbt, ← hshape]
  simp only [hpre, if_true]
  rw [hlead]
  exact stripTrailingFence_body body

/-- C7 (amended): for every text whose trimmed form does not already begin
with a code fence and that `parseAnalysisResult` parses successfully,
wrapping the text in ```` ```json ```` or plain ```` ``` ```` fence markers
yields the identical parse result. -/
theorem parseAnalysisResult_fence_invariant (s : String)
    (hnf : fenceChars.isPrefixOf (trimWs s.toList) = false)
    (_hok : ∃ r, parseAnalysisResult s = .ok r) :
    parseAnalysisResult (fenceJson s) = parseAnalysisResult s ∧
    parseAnalysisResult (fencePlain s) = parseAnalysisResult s := by
  have hbare : stripFences s.toList = trimWs s.toList := by
    unfold stripFences
    simp [hnf]
    intro hc
    rw [← List.isPrefixOf_iff_prefix] at hc
    have hnf' : fenceChars.isPrefixOf (trimWs s.data) = false := hnf
    rw [hnf'] at hc
    cases hc
  have htrim : trimWs (dropWs s.toList) = trimWs (trimWs s.toList) := by
    rw [trimWs_idem]
    unfold trimWs
    rw [dropWs_idem]
  have e1 : "```json\n".data = [Char.ofNat 96, Char.ofNat 96, Char.ofNat 96,
      'j', 's', 'o', 'n', Char.ofNat 10] := by decide
  have e2 : "\n```".data = [Char.ofNat 10, Char.ofNat 96, Char.ofNat 96,
      Char.ofNat 96] := by decide
  have e3 : "```\n".data = [Char.ofNat 96, Char.ofNat 96, Char.ofNat 96,
      Char.ofNat 10] := by decide
  have hXj : (fenceJson s).toList =
      [Char.ofNat 96, Char.ofNat 96, Char.ofNat 96, 'j', 's', 'o', 'n',
        Char.ofNat 10] ++ (s.toList ++ [Char.ofNat 10, Char.ofNat 96,
        Char.ofNat 96, Char.ofNat 96]) := by
    show (fenceJson s).data = _
    simp [fenceJson, String.data_append, e1, e2, String.toList]
  have hXp : (fencePlain s).toList =
      [Char.ofNat 96, Char.ofNat 96, Char.ofNat 96, Char.ofNat 10] ++
        (s.toList ++ [Char.ofNat 10, Char.ofNat 96, Char.ofNat 96,
          Char.ofNat 96]) := by
    show (fencePlain s).data = _
    simp [fencePlain, String.data_append, e3, e2, String.toList]
  have hj : jsonParseL (stripFences ((fenceJson s).toList)) =
      jsonParseL (stripFences s.toList) := by
    rw [hXj, stripFences_json_body, hbare]
    exact jsonParseL_congr _ _ htrim
  have hp : jsonParseL (stripFences ((fencePlain s).toList)) =
      jsonParseL (stripFences s.toList) := by
    rw [hXp, stripFences_plain_body, hbare]
    exact jsonParseL_congr _ _ htrim
  refine ⟨?_, ?_⟩ <;> unfold parseAnalysisResult
  · rw [hj]
  · rw [hp]

/-- A syntactically and schematically valid classifier output. -/
def wellFormedAnalysisText : String :=
  "\x7b\"type\":\"bug\",\"severity\":\"low\",\"autoFixable\":false," ++
  "\"confidence\":0.5,\"reasoning\":\"r\",\"acceptanceCriteria\":[]," ++
  "\"needsClarification\":[],\"ralphPrompt\":null\x7d"

set_option maxRecDepth 1000000 in
/-- Witness for C7 (amended): fencing a bare well-formed classifier output
changes nothing. -/
theorem parseAnalysisResult_fence_invariant_w :
    parseAnalysisResult (fenceJson wellFormedAnalysisText) =
      parseAnalysisResult wellFormedAnalysisText ∧
    parseAnalysisResult (fencePlain wellFormedAnalysisText) =
      parseAnalysisResult wellFormedAnalysisText :=
  parseAnalysisResult_fence_invariant wellFormedAnalysisText (by decide)
    ⟨_, by rfl⟩

set_option maxRecDepth 1000000 in
/-- Counterexample to C7 as stated: the already-fenced text
`fencePlain wellFormedAnalysisText` is itself parsed successfully by
`parseAnalysisResult` (that is the fence-recovery feature), but wrapping that
text in fence markers once more leaves a stray fence behind and the parse
fails — the results differ. -/
theorem parseAnalysisResult_double_fence_cex :
    (∃ r, parseAnalysisResult (fencePlain wellFormedAnalysisText) = .ok r) ∧
    parseAnalysisResult (fencePlain (fencePlain wellFormedAnalysisText)) ≠
      parseAnalysisResult (fencePlain wellFormedAnalysisText) := by
  constructor
  · exact ⟨_, by rfl⟩
  · intro h
    rw [show parseAnalysisResult (fencePlain (fencePlain
        wellFormedAnalysisText)) = .error "Unexpected token in JSON" from
        by rfl] at h
    obtain ⟨r, hr⟩ : ∃ r, parseAnalysisResult
        (fencePlain wellFormedAnalysisText) = .ok r := ⟨_, by rfl⟩
    rw [hr] at h
    cases h

end Triage
